import Mathlib

/-!
Verification of the charmcraft command-line dispatcher (`charmcraft/main.py`).

The development shallowly embeds the dispatcher module: the global-option
table, the one-pass pre-parser, the help resolver, the command registry
construction, `Dispatcher.run`, and the top-level `main` exit-code mapping.
External collaborators (the command classes, the configuration loader, the
help renderer and the message handler) are modelled at their interface
boundary: rendered help texts become symbolic `Rendered` values, the
configuration loader is a parameter, and process-wide side effects are
recorded as an explicit event trace.
-/

namespace Charmcraft

/-- The two kinds of global arguments: boolean flags and value options. -/
inductive ArgType
  | flag
  | option
deriving DecidableEq, Repr

/-- One entry of `GLOBAL_ARGS`: the `_Global` namedtuple of the source. -/
structure GlobalArg where
  name : String
  argtype : ArgType
  short_option : String
  long_option : String
  help_message : String
deriving DecidableEq, Repr

/-- The `help` entry of the global table. -/
def helpArg : GlobalArg := ⟨"help", .flag, "-h", "--help", "Show this help message and exit"⟩

/-- The `verbose` entry of the global table. -/
def verboseArg : GlobalArg :=
  ⟨"verbose", .flag, "-v", "--verbose", "Show debug information and be more verbose"⟩

/-- The `quiet` entry of the global table. -/
def quietArg : GlobalArg :=
  ⟨"quiet", .flag, "-q", "--quiet", "Only show warnings and errors, not progress"⟩

/-- The `project_dir` entry of the global table. -/
def projectDirArg : GlobalArg :=
  ⟨"project_dir", .option, "-p", "--project-dir",
    "Specify the project\x27s directory (defaults to current)"⟩

/-- The `GLOBAL_ARGS` table of the source module. -/
def GLOBAL_ARGS : List GlobalArg := [helpArg, verboseArg, quietArg, projectDirArg]

/-- The value stored for a global argument: `False`/`True` for a flag,
`None` or a string for a value option. -/
inductive GVal
  | flagVal (b : Bool)
  | optVal (v : Option String)
deriving DecidableEq, Repr

/-- Association-list model of a Python dict with string keys. -/
def dictFind {α : Type} : List (String × α) → String → Option α
  | [], _ => none
  | (k, v) :: rest, key => if k = key then some v else dictFind rest key

/-- Dict assignment: overwrite the entry when the key is present, append
otherwise. Keys are unique in every dict this development builds, so the
map-based overwrite agrees with Python dict assignment. -/
def dictSet {α : Type} (d : List (String × α)) (key : String) (v : α) : List (String × α) :=
  if d.any (fun p => p.1 = key) then
    d.map (fun p => if p.1 = key then (key, v) else p)
  else
    d ++ [(key, v)]

/-- The `global_args` accumulator of `_pre_parse_args`. -/
abbrev GlobalState := List (String × GVal)

/-- The initial `global_args` dict: every flag defaults to `False`, every
value option to `None`. -/
def initGlobalState : GlobalState :=
  GLOBAL_ARGS.map fun a =>
    (a.name, match a.argtype with
      | .flag => GVal.flagVal false
      | .option => GVal.optVal none)

/-- The `arg_per_option` dict: each global argument indexed by its short and
long spelling. -/
def argPerOption : List (String × GlobalArg) :=
  GLOBAL_ARGS.flatMap fun a => [(a.short_option, a), (a.long_option, a)]

/-- Exact-spelling lookup of a token among the declared global option forms. -/
def findOption (tok : String) : Option GlobalArg :=
  dictFind argPerOption tok

/-- The `options_with_equal` tuple: the `--name=` stems of the value options. -/
def optionsWithEqual : List String :=
  (GLOBAL_ARGS.filter fun a => a.argtype = .option).map fun a => a.long_option ++ "="

/-- Whether a token starts with one of the `--name=` stems. -/
def startsWithAnyEq (tok : String) : Bool :=
  optionsWithEqual.any fun p => p.data.isPrefixOf tok.data

/-- Split a character list at the first `=`, dropping the separator: the
embedding of `sysarg.split("=", 1)` when a `=` is known to be present. -/
def splitFirstEq : List Char → List Char × List Char
  | [] => ([], [])
  | c :: cs =>
    if c = '=' then ([], cs)
    else
      let r := splitFirstEq cs
      (c :: r.1, r.2)

/-- Truthiness of a flag slot of `global_args`. -/
def getFlag (st : GlobalState) (name : String) : Bool :=
  match dictFind st name with
  | some (.flagVal b) => b
  | _ => false

/-- The value of a value-option slot of `global_args`. -/
def getOpt (st : GlobalState) (name : String) : Option String :=
  match dictFind st name with
  | some (.optVal v) => v
  | _ => none

/-- Errors the pre-parse scanning loop can raise: `ArgumentParsingError`
with a message, or the (unreachable) `KeyError` of the `--name=value`
branch. -/
inductive ScanError
  | argParse (msg : String)
  | keyError (key : String)
deriving DecidableEq, Repr

/-- The message of both value-option failures (missing next token and empty
`=` value) in the source. -/
def missingValueMsg : String := "The \x27project-dir\x27 option expects one argument."

/-- The scanning loop of `_pre_parse_args`: one left-to-right pass that
extracts global tokens and accumulates the rest into `filtered_sysargs`. -/
def scan : GlobalState → List String → List String → Except ScanError (GlobalState × List String)
  | st, filtered, [] => .ok (st, filtered)
  | st, filtered, sysarg :: rest =>
    match findOption sysarg with
    | some arg =>
      match arg.argtype with
      | .flag => scan (dictSet st arg.name (.flagVal true)) filtered rest
      | .option =>
        match rest with
        | [] => .error (.argParse missingValueMsg)
        | value :: rest2 => scan (dictSet st arg.name (.optVal (some value))) filtered rest2
    | none =>
      if startsWithAnyEq sysarg then
        let parts := splitFirstEq sysarg.data
        let value := String.mk parts.2
        if value = "" then .error (.argParse missingValueMsg)
        else
          match findOption (String.mk parts.1) with
          | some arg => scan (dictSet st arg.name (.optVal (some value))) filtered rest
          | none => .error (.keyError (String.mk parts.1))
      else scan st (filtered ++ [sysarg]) rest

/-- Texts produced by the external help renderer, kept symbolic. -/
inductive Rendered
  | usageMessage (msg : String) (command : Option String)
  | fullHelp
  | detailedHelp
  | commandHelp (name : String)
  | plain (s : String)
deriving DecidableEq, Repr

/-- `get_general_help`: the full or the detailed general help. -/
def getGeneralHelp (detailed : Bool) : Rendered :=
  if detailed then .detailedHelp else .fullHelp

/-- The configuration object returned by the external `config.load`. -/
structure Project where
  config_provided : Bool
deriving DecidableEq, Repr

/-- The loaded charmcraft configuration (interface boundary: only
`project.config_provided` is consumed by this module). -/
structure Config where
  project : Project
deriving DecidableEq, Repr

/-- The namespace produced by argparse for a command, modelled as an
attribute list. -/
abbrev ParsedArgs := List (String × String)

/-- What a command run can do: return a code (or none), raise
`CommandError` with a return code, be interrupted, or crash. -/
inductive RunResult
  | value (retcode : Option Int)
  | commandError (retcode : Int)
  | interrupt
  | crash
deriving DecidableEq, Repr

/-- A command class of the registry, specified by the collaborator
contract: its Python class name, its command name, whether it needs a
configuration, its argument parsing (`fill_parser` plus argparse, failures
carrying the usage message text), and its execution entry point. -/
structure CmdClass where
  className : String
  name : String
  needs_config : Bool
  parseArgs : List String → Except String ParsedArgs
  runImpl : Config → ParsedArgs → RunResult

/-- An instantiated command: a class paired with its injected configuration. -/
structure CommandInstance where
  cls : CmdClass
  config : Config

/-- The two exception kinds raised below `main` by the dispatcher layer,
plus an `internal` kind for exceptions that are neither
(`KeyError`/`RuntimeError`), which `main` treats as crashes. -/
inductive Exc
  | argError (text : Rendered)
  | helpExc (text : Rendered)
  | internal (msg : String)

/-- The message of the `help`-request error for more than one parameter. -/
def tooManyHelpMsg : String :=
  "Too many parameters when requesting help; pass a command, \x27--all\x27, or leave it empty"

/-- The message of the `help`-request error for an unknown command. -/
def cmdNotFoundMsg (param : String) : String :=
  "command \x27" ++ param ++ "\x27 not found to provide help for"

/-- The message of the unknown-command error of the pre-parser. -/
def noSuchCmdMsg (command : String) : String :=
  "no such command \x27" ++ command ++ "\x27"

/-- The mutual-exclusion message for `quiet` together with `verbose`. -/
def mutualExclusiveMsg : String :=
  "The \x27verbose\x27 and \x27quiet\x27 options are mutually exclusive."

/-- The configuration-required message of `Dispatcher.run`. -/
def configRequiredMsg : String :=
  "The specified command needs a valid \x27charmcraft.yaml\x27 configuration file (in " ++
  "the current directory or where specified with --project-dir option); see " ++
  "the reference: https://discourse.charmhub.io/t/charmcraft-configuration/4138"

/-- `_get_requested_help`: resolve the tokens following a help trigger into
a rendered help text, or fail with a usage-formatted `ArgumentParsingError`. -/
def getRequestedHelp (commands : List (String × CmdClass)) (parameters : List String) :
    Except Rendered Rendered :=
  if parameters.length = 0 then .ok (getGeneralHelp false)
  else if parameters.length > 1 then .error (.usageMessage tooManyHelpMsg none)
  else
    match parameters with
    | [param] =>
      if param = "--all" then .ok (getGeneralHelp true)
      else
        match dictFind commands param with
        | some cls => .ok (.commandHelp cls.name)
        | none => .error (.usageMessage (cmdNotFoundMsg param) none)
    | _ => .error (.usageMessage tooManyHelpMsg none)

/-- The verbosity modes of the message handler. -/
inductive Mode
  | quiet
  | verbose
deriving DecidableEq, Repr

/-- Observable collaborator calls: the message-handler mode switch, the
configuration load, and the instantiation of the dispatched command. -/
inductive Event
  | setMode (m : Mode)
  | loadConfig (projectDir : Option String)
  | instantiate (name : String) (cfg : Config)
deriving DecidableEq, Repr

/-- The mode side effects applied right after the scanning pass. -/
def modeEvents (st : GlobalState) : List Event :=
  if getFlag st "quiet" then [.setMode .quiet]
  else if getFlag st "verbose" then [.setMode .verbose]
  else []

/-- `_pre_parse_args`: scan, apply and validate global options, resolve the
help request or the command, and load the configuration. The second
component records the collaborator calls made along the way. -/
def preParse (commands : List (String × CmdClass)) (loadCfg : Option String → Config)
    (sysargs : List String) :
    Except Exc (String × List String × Config) × List Event :=
  match scan initGlobalState [] sysargs with
  | .error (.argParse msg) => (.error (.argError (.plain msg)), [])
  | .error (.keyError k) => (.error (.internal k), [])
  | .ok (st, filtered) =>
    if getFlag st "quiet" && getFlag st "verbose" then
      (.error (.argError (.plain mutualExclusiveMsg)), [])
    else
      let evs := modeEvents st
      if getFlag st "help" then
        (match getRequestedHelp commands filtered with
          | .ok text => .error (.helpExc text)
          | .error text => .error (.argError text), evs)
      else
        match filtered with
        | command :: cmdArgs =>
          if command = "help" then
            (match getRequestedHelp commands cmdArgs with
              | .ok text => .error (.helpExc text)
              | .error text => .error (.argError text), evs)
          else
            match dictFind commands command with
            | none => (.error (.argError (.usageMessage (noSuchCmdMsg command) none)), evs)
            | some _ =>
              let pd := getOpt st "project_dir"
              (.ok (command, cmdArgs, loadCfg pd), evs ++ [.loadConfig pd])
        | [] => (.error (.argError .fullHelp), evs)

/-- The duplicate-name `RuntimeError` message of `_get_commands_info`. -/
def dupCmdMsg (newName storedName : String) : String :=
  "Multiple commands with same name: " ++ newName ++ " and " ++ storedName

/-- The inner loop of `_get_commands_info` over the classes of one group. -/
def addCommands : List (String × CmdClass) → List CmdClass →
    Except String (List (String × CmdClass))
  | cmds, [] => .ok cmds
  | cmds, c :: rest =>
    match dictFind cmds c.name with
    | some stored => .error (dupCmdMsg c.className stored.className)
    | none => addCommands (cmds ++ [(c.name, c)]) rest

/-- The outer loop of `_get_commands_info` over the command groups. -/
def getCommandsInfoAux : List (String × CmdClass) → List (String × String × List CmdClass) →
    Except String (List (String × CmdClass))
  | cmds, [] => .ok cmds
  | cmds, (_, _, classes) :: rest =>
    match addCommands cmds classes with
    | .error e => .error e
    | .ok cmds2 => getCommandsInfoAux cmds2 rest

/-- `_get_commands_info`: build the name-to-class registry, failing fast on
a duplicate command name. -/
def getCommandsInfo (groups : List (String × String × List CmdClass)) :
    Except String (List (String × CmdClass)) :=
  getCommandsInfoAux [] groups

/-- All command classes of a group structure, in declaration order. -/
def flatClasses (groups : List (String × String × List CmdClass)) : List CmdClass :=
  groups.flatMap fun g => g.2.2

/-- The dispatcher after a successful `__init__`. -/
structure Dispatcher where
  command : CommandInstance
  parsed_args : ParsedArgs

/-- The termination reason of one invocation. -/
inductive Outcome
  | ok (retcode : Option Int)
  | argError (text : Rendered)
  | helpExc (text : Rendered)
  | commandError (retcode : Int)
  | interrupted
  | crashed
deriving DecidableEq, Repr

/-- Map what a command run did to the termination reason `main` observes. -/
def outcomeOfRunResult : RunResult → Outcome
  | .value r => .ok r
  | .commandError r => .commandError r
  | .interrupt => .interrupted
  | .crash => .crashed

/-- `Dispatcher.run`: check the configuration precondition, then execute
the command with its parsed arguments. -/
def Dispatcher.run (d : Dispatcher) : Outcome :=
  if d.command.cls.needs_config && !d.command.config.project.config_provided then
    .argError (.plain configRequiredMsg)
  else
    outcomeOfRunResult (d.command.cls.runImpl d.command.config d.parsed_args)

/-- The body of `main` up to exception mapping: build the registry, run the
dispatcher `__init__` (pre-parse and command load), then `run()`. -/
def dispatchPipeline (groups : List (String × String × List CmdClass))
    (loadCfg : Option String → Config) (sysargs : List String) : Outcome × List Event :=
  match getCommandsInfo groups with
  | .error _ => (.crashed, [])
  | .ok commands =>
    match preParse commands loadCfg sysargs with
    | (.error (.argError t), evs) => (.argError t, evs)
    | (.error (.helpExc t), evs) => (.helpExc t, evs)
    | (.error (.internal _), evs) => (.crashed, evs)
    | (.ok (name, cmdArgs, cfg), evs) =>
      match dictFind commands name with
      | none => (.crashed, evs)
      | some cls =>
        match cls.parseArgs cmdArgs with
        | .error m =>
          (.argError (.usageMessage m (some cls.name)), evs ++ [.instantiate cls.name cfg])
        | .ok pa =>
          (Dispatcher.run ⟨⟨cls, cfg⟩, pa⟩, evs ++ [.instantiate cls.name cfg])

/-- `main`: run the pipeline on `argv[1:]` and map the termination reason
to the process status code through the `try`/`except` ladder of the source. -/
def main (groups : List (String × String × List CmdClass))
    (loadCfg : Option String → Config) (argv : List String) : Int × List Event :=
  let r := dispatchPipeline groups loadCfg argv.tail
  (match r.1 with
    | .ok none => 0
    | .ok (some c) => c
    | .argError _ => 1
    | .helpExc _ => 0
    | .commandError c => c
    | .interrupted => 1
    | .crashed => 1,
   r.2)

/-- Modelled from the spec: the command classes themselves live outside the
dispatcher module; section 6 specifies their interface (name, needsConfig,
fillParser, run) and section 8 uses `version` as a no-op command that
returns no explicit code. -/
def versionCommand : CmdClass :=
  { className := "VersionCommand"
    name := "version"
    needs_config := false
    parseArgs := fun args => if args = [] then .ok [] else .error "unrecognized arguments"
    runImpl := fun _ _ => .value none }

/-- Modelled from the spec: the `pack` command, named by section 8 as a
registered command; it declares that it needs a configuration. -/
def packCommand : CmdClass :=
  { className := "PackCommand"
    name := "pack"
    needs_config := true
    parseArgs := fun args => .ok (args.map fun a => ("arg", a))
    runImpl := fun _ _ => .value none }

/-- Modelled from the spec: a small `COMMAND_GROUPS` structure holding the
two spec-named commands, for concrete instances of the theorems. -/
def demoGroups : List (String × String × List CmdClass) :=
  [("basic", "Basic", [versionCommand, packCommand])]

/-- The registry the demo groups produce. -/
def demoRegistry : List (String × CmdClass) :=
  [("version", versionCommand), ("pack", packCommand)]

/-- A concrete configuration loader for the demo instances. -/
def demoLoad : Option String → Config :=
  fun _ => { project := { config_provided := true } }

/-- A second, distinct command class that declares the same name as
`packCommand`, for exercising the duplicate-name registry error. -/
def packCloneCommand : CmdClass :=
  { className := "PackCloneCommand"
    name := "pack"
    needs_config := false
    parseArgs := fun _ => .ok []
    runImpl := fun _ _ => .value none }

/-- A group structure with two distinct classes sharing one name. -/
def dupGroups : List (String × String × List CmdClass) :=
  [("basic", "Basic", [packCommand, packCloneCommand])]

/-- Count of configuration-loader calls in an event trace. -/
def loadCount (evs : List Event) : Nat :=
  (evs.filter fun e => match e with | .loadConfig _ => true | _ => false).length

/-- Stated from the specification wording (section 6 and section 7): exit
code 0 for success or a rendered help, 1 for argument errors, crashes and
interrupts, the command-declared code on a command-reported failure, and
the command result (defaulting to 0) on success. Compared against `main`
by the claim C1 theorem. -/
def exitCodeSpec : Outcome → Int
  | .helpExc _ => 0
  | .argError _ => 1
  | .crashed => 1
  | .interrupted => 1
  | .commandError c => c
  | .ok r => r.getD 0

/-- Stated from the specification wording (section 4.2): the five-case help
resolution policy. Compared against `getRequestedHelp` by the claim C4
theorem. -/
def helpPolicySpec (commands : List (String × CmdClass)) (parameters : List String) :
    Except Rendered Rendered :=
  match parameters with
  | [] => .ok .fullHelp
  | [param] =>
    if param = "--all" then .ok .detailedHelp
    else
      match dictFind commands param with
      | some cls => .ok (.commandHelp cls.name)
      | none => .error (.usageMessage (cmdNotFoundMsg param) none)
  | _ => .error (.usageMessage tooManyHelpMsg none)

/-- The token suffixes the scanning loop visits while consuming a stream:
`Reaches l r` holds when the scan of `l` at some point has exactly `r`
left to process. -/
inductive Reaches : List String → List String → Prop
  | refl (l : List String) : Reaches l l
  | flagStep {l : List String} {tok : String} {a : GlobalArg} {rest : List String} :
      Reaches l (tok :: rest) → findOption tok = some a → a.argtype = .flag →
      Reaches l rest
  | valueStep {l : List String} {tok v : String} {a : GlobalArg} {rest : List String} :
      Reaches l (tok :: v :: rest) → findOption tok = some a → a.argtype = .option →
      Reaches l rest
  | eqStep {l : List String} {tok : String} {t : List Char} {rest : List String} :
      Reaches l (tok :: rest) → tok.data = "--project-dir=".data ++ t → t ≠ [] →
      Reaches l rest
  | skipStep {l : List String} {tok : String} {rest : List String} :
      Reaches l (tok :: rest) → findOption tok = none → startsWithAnyEq tok = false →
      Reaches l rest

/-- Claim C1: `main` maps every termination reason to the process status
code exactly as the specification states: ArgumentError to 1, a help
request to 0, a command-reported failure to the command-chosen code,
interrupts and unexpected exceptions to 1, and a successful run to the
command result with `None` defaulting to 0. -/
theorem mainExitCodeMapping (groups : List (String × String × List CmdClass))
    (loadCfg : Option String → Config) (argv : List String) :
    (main groups loadCfg argv).1 = exitCodeSpec (dispatchPipeline groups loadCfg argv.tail).1 := by
  rcases h : (dispatchPipeline groups loadCfg argv.tail).1 with r | t | t | c | _ | _
  · rcases r with _ | c <;> simp [main, exitCodeSpec, h]
  all_goals simp [main, exitCodeSpec, h]

/-- Claim C4: the help resolver agrees with the five-case policy of the
specification on every token list: empty gives general help, more than one
token the too-many error, `--all` the detailed help, a registered command
name that command help, and anything else the not-found error. -/
theorem helpResolutionPolicy (commands : List (String × CmdClass)) (parameters : List String) :
    getRequestedHelp commands parameters = helpPolicySpec commands parameters := by
  match parameters with
  | [] => rfl
  | [param] =>
    simp only [getRequestedHelp, helpPolicySpec, List.length_cons, List.length_nil]
    norm_num [getGeneralHelp]
  | p :: q :: rest =>
    simp only [getRequestedHelp, helpPolicySpec, List.length_cons]
    norm_num

/-- Claim C6: when a command declares `needs_config` and the loaded
configuration was not actually provided, `run()` raises the
configuration-required ArgumentError without consulting the execution
entry point (the result is independent of `runImpl`); otherwise it
executes the command on the parsed arguments and returns its result. -/
theorem runConfigPrecondition (cls : CmdClass) (cfg : Config) (pa : ParsedArgs) :
    (cls.needs_config = true → cfg.project.config_provided = false →
      Dispatcher.run ⟨⟨cls, cfg⟩, pa⟩ = .argError (.plain configRequiredMsg) ∧
      ∀ f g : Config → ParsedArgs → RunResult,
        Dispatcher.run ⟨⟨{ cls with runImpl := f }, cfg⟩, pa⟩ =
          Dispatcher.run ⟨⟨{ cls with runImpl := g }, cfg⟩, pa⟩) ∧
    (¬(cls.needs_config = true ∧ cfg.project.config_provided = false) →
      Dispatcher.run ⟨⟨cls, cfg⟩, pa⟩ = outcomeOfRunResult (cls.runImpl cfg pa)) := by
  constructor
  · intro hn hp
    constructor
    · simp [Dispatcher.run, hn, hp]
    · intro f g
      simp [Dispatcher.run, hn, hp]
  · intro h
    unfold Dispatcher.run
    simp only
    rcases hnc : cls.needs_config with _ | _
    · simp
    · rcases hcp : cfg.project.config_provided with _ | _
      · exact absurd ⟨hnc, hcp⟩ h
      · simp

/-- Witness for claim C6 at a concrete command: a config-needing command
with an unprovided configuration yields the configuration-required error,
and with a provided configuration it returns the command result. -/
theorem runConfigPrecondition_witness :
    Dispatcher.run ⟨⟨packCommand, ⟨⟨false⟩⟩⟩, []⟩ = .argError (.plain configRequiredMsg) ∧
      Dispatcher.run ⟨⟨packCommand, ⟨⟨true⟩⟩⟩, []⟩ =
        outcomeOfRunResult (packCommand.runImpl ⟨⟨true⟩⟩ []) := by
  constructor
  · exact ((runConfigPrecondition packCommand ⟨⟨false⟩⟩ []).1 rfl rfl).1
  · exact (runConfigPrecondition packCommand ⟨⟨true⟩⟩ []).2 (by simp [packCommand])

theorem dictSet_dictSet {α : Type} (d : List (String × α)) (k : String) (v w : α) :
    dictSet (dictSet d k v) k w = dictSet d k w := by
  by_cases h : (d.any fun p => decide (p.1 = k)) = true
  · have h1 : dictSet d k v = d.map (fun p => if p.1 = k then (k, v) else p) := by
      unfold dictSet
      rw [if_pos h]
    have h2 : dictSet d k w = d.map (fun p => if p.1 = k then (k, w) else p) := by
      unfold dictSet
      rw [if_pos h]
    have hany : ((d.map fun p => if p.1 = k then (k, v) else p).any
        fun p => decide (p.1 = k)) = true := by
      rw [List.any_eq_true] at h ⊢
      obtain ⟨p, hp, hk⟩ := h
      refine ⟨if p.1 = k then (k, v) else p, List.mem_map_of_mem _ hp, ?_⟩
      simp only [decide_eq_true_eq] at hk
      simp [hk]
    have h3 : dictSet (d.map fun p => if p.1 = k then (k, v) else p) k w =
        (d.map fun p => if p.1 = k then (k, v) else p).map
          (fun p => if p.1 = k then (k, w) else p) := by
      unfold dictSet
      rw [if_pos hany]
    rw [h1, h3, h2, List.map_map]
    exact List.map_congr_left fun p _ => by by_cases hp : p.1 = k <;> simp [hp]
  · have h1 : dictSet d k v = d ++ [(k, v)] := by
      unfold dictSet
      rw [if_neg h]
    have h2 : dictSet d k w = d ++ [(k, w)] := by
      unfold dictSet
      rw [if_neg h]
    have hall : ∀ p ∈ d, ¬ p.1 = k := by
      intro p hp hk
      exact h (List.any_eq_true.mpr ⟨p, hp, by simp [hk]⟩)
    have hany : ((d ++ [(k, v)]).any fun p => decide (p.1 = k)) = true := by
      rw [List.any_eq_true]
      exact ⟨(k, v), by simp, by simp⟩
    have h3 : dictSet (d ++ [(k, v)]) k w =
        (d ++ [(k, v)]).map (fun p => if p.1 = k then (k, w) else p) := by
      unfold dictSet
      rw [if_pos hany]
    rw [h1, h3, h2, List.map_append]
    have hmap : (d.map fun p => if p.1 = k then (k, w) else p) = d := by
      conv_rhs => rw [← List.map_id d]
      exact List.map_congr_left fun p hp => by simp [hall p hp]
    rw [hmap]
    simp

theorem findOption_cases {tok : String} {a : GlobalArg} (h : findOption tok = some a) :
    ((tok = "-h" ∨ tok = "--help") ∧ a = helpArg) ∨
    ((tok = "-v" ∨ tok = "--verbose") ∧ a = verboseArg) ∨
    ((tok = "-q" ∨ tok = "--quiet") ∧ a = quietArg) ∨
    ((tok = "-p" ∨ tok = "--project-dir") ∧ a = projectDirArg) := by
  have hape : argPerOption = [("-h", helpArg), ("--help", helpArg), ("-v", verboseArg),
      ("--verbose", verboseArg), ("-q", quietArg), ("--quiet", quietArg),
      ("-p", projectDirArg), ("--project-dir", projectDirArg)] := rfl
  rw [findOption, hape] at h
  simp only [dictFind] at h
  split_ifs at h with h1 h2 h3 h4 h5 h6 h7 h8 <;> simp_all

theorem findOption_length {tok : String} {a : GlobalArg} (h : findOption tok = some a) :
    tok.data.length ≤ 13 := by
  rcases findOption_cases h with ⟨ht, _⟩ | ⟨ht, _⟩ | ⟨ht, _⟩ | ⟨ht, _⟩ <;>
    rcases ht with ht | ht <;> subst ht <;> decide

theorem startsWithAnyEq_iff (tok : String) :
    startsWithAnyEq tok = true ↔ ∃ t, tok.data = "--project-dir=".data ++ t := by
  have hopt : optionsWithEqual = ["--project-dir="] := rfl
  rw [startsWithAnyEq, hopt]
  simp only [List.any_cons, List.any_nil, Bool.or_false, List.isPrefixOf_iff_prefix]
  constructor
  · intro hpre
    obtain ⟨t, ht⟩ := hpre
    exact ⟨t, ht.symm⟩
  · intro hpre
    obtain ⟨t, ht⟩ := hpre
    exact ⟨t, ht.symm⟩

theorem findOption_eqform {tok : String} {t : List Char}
    (hp : tok.data = "--project-dir=".data ++ t) : findOption tok = none := by
  cases hf : findOption tok with
  | none => rfl
  | some a =>
    have hlen := findOption_length hf
    rw [hp] at hlen
    have hstem : ("--project-dir=".data).length = 14 := by decide
    rw [List.length_append, hstem] at hlen
    omega

theorem splitFirstEq_append {p : List Char} (t : List Char) (hp : '=' ∉ p) :
    splitFirstEq (p ++ '=' :: t) = (p, t) := by
  induction p with
  | nil => simp [splitFirstEq]
  | cons c cs ih =>
    simp only [List.mem_cons, not_or] at hp
    obtain ⟨hc, hcs⟩ := hp
    have hc2 : ¬(c = '=') := fun hh => hc hh.symm
    simp [splitFirstEq, hc2, ih hcs]

theorem scan_nil (st : GlobalState) (f : List String) : scan st f [] = .ok (st, f) := rfl

theorem scan_flag {tok : String} {a : GlobalArg} (h : findOption tok = some a)
    (ht : a.argtype = .flag) (st : GlobalState) (f rest : List String) :
    scan st f (tok :: rest) = scan (dictSet st a.name (.flagVal true)) f rest := by
  simp only [scan, h, ht]

theorem scan_value_missing {tok : String} {a : GlobalArg} (h : findOption tok = some a)
    (ht : a.argtype = .option) (st : GlobalState) (f : List String) :
    scan st f [tok] = .error (.argParse missingValueMsg) := by
  simp only [scan, h, ht]

theorem scan_value {tok : String} {a : GlobalArg} (h : findOption tok = some a)
    (ht : a.argtype = .option) (st : GlobalState) (f : List String) (v : String)
    (rest : List String) :
    scan st f (tok :: v :: rest) = scan (dictSet st a.name (.optVal (some v))) f rest := by
  simp only [scan, h, ht]

theorem scan_other {tok : String} (h : findOption tok = none)
    (he : startsWithAnyEq tok = false) (st : GlobalState) (f rest : List String) :
    scan st f (tok :: rest) = scan st (f ++ [tok]) rest := by
  simp [scan, h, he]

theorem scan_eqform {tok : String} {t : List Char}
    (hp : tok.data = "--project-dir=".data ++ t) (hne : t ≠ []) (st : GlobalState)
    (f rest : List String) :
    scan st f (tok :: rest) =
      scan (dictSet st "project_dir" (.optVal (some (String.mk t)))) f rest := by
  have hn : findOption tok = none := findOption_eqform hp
  have hsw : startsWithAnyEq tok = true := (startsWithAnyEq_iff tok).mpr ⟨t, hp⟩
  have hsplit : splitFirstEq tok.data = ("--project-dir".data, t) := by
    rw [hp, show ("--project-dir=".data : List Char) = "--project-dir".data ++ ['='] from by decide,
      List.append_assoc, List.singleton_append]
    exact splitFirstEq_append t (by decide)
  have hv : ¬(String.mk t = "") := by
    intro habs
    apply hne
    have hd : (String.mk t).data = ("" : String).data := by rw [habs]
    simpa using hd
  have hfp : findOption (String.mk "--project-dir".data) = some projectDirArg := rfl
  simp only [scan, hn, hsw, if_true, hsplit, hv, if_false, hfp]
  rfl

theorem scan_eqform_empty {tok : String} (hp : tok.data = "--project-dir=".data)
    (st : GlobalState) (f rest : List String) :
    scan st f (tok :: rest) = .error (.argParse missingValueMsg) := by
  have hn : findOption tok = none := findOption_eqform (t := []) (by simpa using hp)
  have hsw : startsWithAnyEq tok = true := (startsWithAnyEq_iff tok).mpr ⟨[], by simpa using hp⟩
  have hsplit : splitFirstEq tok.data = ("--project-dir".data, []) := by
    rw [hp, show ("--project-dir=".data : List Char) = "--project-dir".data ++ '=' :: [] from by decide]
    exact splitFirstEq_append [] (by decide)
  simp only [scan, hn, hsw, if_true, hsplit]

theorem scan_ok_shape : ∀ (args : List String) (st : GlobalState) (f : List String)
    (st' : GlobalState) (f' : List String), scan st f args = .ok (st', f') →
    ∃ g, f' = f ++ g ∧ g.Sublist args ∧
      ∀ x ∈ g, findOption x = none ∧ startsWithAnyEq x = false := by
  suffices H : ∀ (n : ℕ) (args : List String), args.length ≤ n →
      ∀ (st : GlobalState) (f : List String) (st' : GlobalState) (f' : List String),
        scan st f args = .ok (st', f') →
        ∃ g, f' = f ++ g ∧ g.Sublist args ∧
          ∀ x ∈ g, findOption x = none ∧ startsWithAnyEq x = false by
    exact fun args => H args.length args le_rfl
  intro n
  induction n with
  | zero =>
    intro args hlen st f st' f' h
    have hargs : args = [] := List.eq_nil_of_length_eq_zero (Nat.le_zero.mp hlen)
    subst hargs
    rw [scan_nil] at h
    simp only [Except.ok.injEq, Prod.mk.injEq] at h
    obtain ⟨hst, hf⟩ := h
    exact ⟨[], by simp [hf], List.nil_sublist _, by simp⟩
  | succ n ih =>
    intro args hlen st f st' f' h
    cases args with
    | nil =>
      rw [scan_nil] at h
      simp only [Except.ok.injEq, Prod.mk.injEq] at h
      obtain ⟨hst, hf⟩ := h
      exact ⟨[], by simp [hf], List.nil_sublist _, by simp⟩
    | cons tok rest =>
      cases hfo : findOption tok with
      | none =>
        cases hsw : startsWithAnyEq tok with
        | false =>
          rw [scan_other hfo hsw] at h
          have hlen2 : rest.length ≤ n := by
            simp only [List.length_cons] at hlen
            omega
          obtain ⟨g, hg1, hg2, hg3⟩ := ih rest hlen2 st (f ++ [tok]) st' f' h
          refine ⟨tok :: g, ?_, List.Sublist.cons₂ tok hg2, ?_⟩
          · rw [hg1]
            simp
          · intro x hx
            rcases List.mem_cons.mp hx with hx | hx
            · subst hx
              exact ⟨hfo, hsw⟩
            · exact hg3 x hx
        | true =>
          obtain ⟨t, hp⟩ := (startsWithAnyEq_iff tok).mp hsw
          cases t with
          | nil =>
            rw [scan_eqform_empty (by simpa using hp)] at h
            simp at h
          | cons c cs =>
            rw [scan_eqform hp (by simp)] at h
            have hlen2 : rest.length ≤ n := by
              simp only [List.length_cons] at hlen
              omega
            obtain ⟨g, hg1, hg2, hg3⟩ := ih rest hlen2 _ f st' f' h
            exact ⟨g, hg1, List.Sublist.cons tok hg2, hg3⟩
      | some a =>
        cases hat : a.argtype with
        | flag =>
          rw [scan_flag hfo hat] at h
          have hlen2 : rest.length ≤ n := by
            simp only [List.length_cons] at hlen
            omega
          obtain ⟨g, hg1, hg2, hg3⟩ := ih rest hlen2 _ f st' f' h
          exact ⟨g, hg1, List.Sublist.cons tok hg2, hg3⟩
        | option =>
          cases rest with
          | nil =>
            rw [scan_value_missing hfo hat] at h
            simp at h
          | cons v rest2 =>
            rw [scan_value hfo hat] at h
            have hlen2 : rest2.length ≤ n := by
              simp only [List.length_cons] at hlen
              omega
            obtain ⟨g, hg1, hg2, hg3⟩ := ih rest2 hlen2 _ f st' f' h
            exact ⟨g, hg1, List.Sublist.cons tok (List.Sublist.cons v hg2), hg3⟩

/-- Claim C2: the pre-parse pass is order-preserving on non-global tokens.
Whenever the scan succeeds, the remaining tokens extend the accumulator
with an in-order sublist of the input whose members match no global option
form (and no `--name=` stem); global tokens are recognised at any
position. In particular `["--verbose", "pack", "--dest", "out"]` leaves
`["pack", "--dest", "out"]`, sets verbose, and raises no error. -/
theorem preParseOrderPreserving :
    (∀ (st : GlobalState) (f args : List String) (st' : GlobalState) (f' : List String),
      scan st f args = .ok (st', f') →
      ∃ g, f' = f ++ g ∧ g.Sublist args ∧
        ∀ x ∈ g, findOption x = none ∧ startsWithAnyEq x = false) ∧
    scan initGlobalState [] ["--verbose", "pack", "--dest", "out"] =
      .ok ([("help", .flagVal false), ("verbose", .flagVal true), ("quiet", .flagVal false),
        ("project_dir", .optVal none)], ["pack", "--dest", "out"]) ∧
    getFlag [("help", .flagVal false), ("verbose", .flagVal true), ("quiet", .flagVal false),
      ("project_dir", .optVal none)] "verbose" = true ∧
    (preParse demoRegistry demoLoad ["--verbose", "pack", "--dest", "out"]).1 =
      .ok ("pack", ["--dest", "out"], demoLoad none) ∧
    (preParse demoRegistry demoLoad ["--verbose", "pack", "--dest", "out"]).2 =
      [.setMode .verbose, .loadConfig none] ∧
    scan initGlobalState [] ["pack", "--verbose"] =
      .ok ([("help", .flagVal false), ("verbose", .flagVal true), ("quiet", .flagVal false),
        ("project_dir", .optVal none)], ["pack"]) :=
  ⟨fun st f args st' f' h => scan_ok_shape args st f st' f' h, rfl, rfl, rfl, rfl, rfl⟩

/-- Witness for claim C2: the order-preservation component applied at the
concrete stream of the specification example. -/
theorem preParseOrderPreserving_witness :
    ∃ g, ["pack", "--dest", "out"] = [] ++ g ∧
      g.Sublist ["--verbose", "pack", "--dest", "out"] ∧
      ∀ x ∈ g, findOption x = none ∧ startsWithAnyEq x = false :=
  preParseOrderPreserving.1 initGlobalState [] ["--verbose", "pack", "--dest", "out"]
    [("help", .flagVal false), ("verbose", .flagVal true), ("quiet", .flagVal false),
      ("project_dir", .optVal none)] ["pack", "--dest", "out"] rfl

/-- Claim C3 fails as stated: in `["-p", "-q", "-v", "version"]` both a
quiet form and a verbose form appear, yet pre-parsing succeeds (the `-q`
token is consumed as the value of `-p`), so no ArgumentError with the
mutual-exclusion message is raised. -/
theorem quietVerboseMutualExclusion_counterexample :
    ("-q" ∈ ["-p", "-q", "-v", "version"] ∧ "-v" ∈ ["-p", "-q", "-v", "version"]) ∧
    (preParse demoRegistry demoLoad ["-p", "-q", "-v", "version"]).1 =
      .ok ("version", [], demoLoad (some "-q")) ∧
    (preParse demoRegistry demoLoad ["-p", "-q", "-v", "version"]).1 ≠
      .error (.argError (.plain mutualExclusiveMsg)) := by
  refine ⟨⟨by simp, by simp⟩, rfl, ?_⟩
  intro habs
  rw [show (preParse demoRegistry demoLoad ["-p", "-q", "-v", "version"]).1 =
    .ok ("version", [], demoLoad (some "-q")) from rfl] at habs
  simp at habs

/-- Claim C3 (amended): whenever the single left-to-right pass completes
and records both the quiet and the verbose flag (that is, both forms
appear as scanned tokens rather than as a value consumed by a value
option, and no value-option error aborts the scan), pre-parsing raises
ArgumentError with the mutual-exclusion message, regardless of any other
tokens present, including help flags and command names. -/
theorem quietVerboseMutualExclusion (commands : List (String × CmdClass))
    (load : Option String → Config) (args : List String) (st : GlobalState)
    (f' : List String) (hscan : scan initGlobalState [] args = .ok (st, f'))
    (hq : getFlag st "quiet" = true) (hv : getFlag st "verbose" = true) :
    (preParse commands load args).1 = .error (.argError (.plain mutualExclusiveMsg)) ∧
    (preParse commands load args).2 = [] := by
  unfold preParse
  rw [hscan]
  simp [hq, hv]

/-- Witness for claim C3 (amended) at a stream that also contains the help
flag and command tokens. -/
theorem quietVerboseMutualExclusion_witness :
    (preParse demoRegistry demoLoad ["-q", "-v", "-h", "pack", "extra"]).1 =
      .error (.argError (.plain mutualExclusiveMsg)) :=
  (quietVerboseMutualExclusion demoRegistry demoLoad ["-q", "-v", "-h", "pack", "extra"]
    [("help", .flagVal true), ("verbose", .flagVal true), ("quiet", .flagVal true),
      ("project_dir", .optVal none)] ["pack", "extra"] rfl rfl rfl).1

/-- Claim C9: a bare invocation (empty remaining tokens, help flag unset)
raises ArgumentError carrying the general non-detailed help text, so it
exits with code 1, unlike an explicit help request which exits with 0. -/
theorem bareInvocationGeneralHelp :
    (∀ (commands : List (String × CmdClass)) (load : Option String → Config)
      (args : List String) (st : GlobalState),
      scan initGlobalState [] args = .ok (st, []) → getFlag st "help" = false →
      (getFlag st "quiet" && getFlag st "verbose") = false →
      (preParse commands load args).1 = .error (.argError .fullHelp)) ∧
    (main demoGroups demoLoad ["charmcraft"]).1 = 1 ∧
    (main demoGroups demoLoad ["charmcraft", "help"]).1 = 0 ∧
    (dispatchPipeline demoGroups demoLoad []).1 = .argError .fullHelp ∧
    (dispatchPipeline demoGroups demoLoad ["help"]).1 = .helpExc .fullHelp := by
  refine ⟨?_, rfl, rfl, rfl, rfl⟩
  intro commands load args st hscan hh hqv
  unfold preParse
  rw [hscan]
  simp [hh, hqv]

/-- Witness for claim C9 at the empty argument vector. -/
theorem bareInvocationGeneralHelp_witness :
    (preParse demoRegistry demoLoad []).1 = .error (.argError .fullHelp) :=
  bareInvocationGeneralHelp.1 demoRegistry demoLoad [] initGlobalState rfl rfl rfl

/-- Claim C10 fails as stated: `-p` appears twice in `["-p", "x", "-p"]`,
and the pre-parser raises the missing-value ArgumentError (the second
occurrence is the last token), rather than raising no error. -/
theorem repeatedGlobalOption_counterexample :
    ["-p", "x", "-p"].count "-p" = 2 ∧
    (preParse demoRegistry demoLoad ["-p", "x", "-p"]).1 =
      .error (.argError (.plain missingValueMsg)) := by
  constructor
  · rfl
  · rfl

/-- Claim C10 (amended): a repeated global option is itself never an
error, but a trailing value-option occurrence still fails with the
missing-value error. An earlier value-option occurrence together with its
value can be dropped in favour of a later one (the resolved value is that
of the last occurrence), a repeated flag occurrence is equivalent to a
single one, and recognised occurrences never reach the remaining tokens. -/
theorem repeatedGlobalOption (st : GlobalState) (f rest : List String) :
    (∀ (t1 t2 : String) (a : GlobalArg) (v1 v2 : String),
      findOption t1 = some a → findOption t2 = some a → a.argtype = .option →
      scan st f (t1 :: v1 :: t2 :: v2 :: rest) = scan st f (t2 :: v2 :: rest)) ∧
    (∀ (t1 t2 : String) (a : GlobalArg),
      findOption t1 = some a → findOption t2 = some a → a.argtype = .flag →
      scan st f (t1 :: t2 :: rest) = scan st f (t2 :: rest)) ∧
    (∀ (args : List String) (st' : GlobalState) (f' : List String) (x : String),
      scan st f args = .ok (st', f') → x ∈ f' → x ∈ f ∨ findOption x = none) := by
  refine ⟨?_, ?_, ?_⟩
  · intro t1 t2 a v1 v2 h1 h2 hat
    rw [scan_value h1 hat, scan_value h2 hat, scan_value h2 hat, dictSet_dictSet]
  · intro t1 t2 a h1 h2 hat
    rw [scan_flag h1 hat, scan_flag h2 hat, scan_flag h2 hat, dictSet_dictSet]
  · intro args st' f' x h hx
    obtain ⟨g, hg1, _, hg3⟩ := scan_ok_shape args st f st' f' h
    subst hg1
    rcases List.mem_append.mp hx with hx | hx
    · exact Or.inl hx
    · exact Or.inr (hg3 x hx).1

/-- Witness for claim C10 (amended): the last `-p` occurrence wins and a
repeated verbose flag (in both spellings) collapses to one. -/
theorem repeatedGlobalOption_witness :
    scan initGlobalState [] ["-p", "a", "-p", "b", "cmd"] =
      scan initGlobalState [] ["-p", "b", "cmd"] ∧
    scan initGlobalState [] ["-v", "--verbose", "rest"] =
      scan initGlobalState [] ["--verbose", "rest"] :=
  ⟨(repeatedGlobalOption initGlobalState [] ["cmd"]).1 "-p" "-p" projectDirArg "a" "b"
      rfl rfl rfl,
    (repeatedGlobalOption initGlobalState [] ["rest"]).2.1 "-v" "--verbose" verboseArg
      rfl rfl rfl⟩

theorem dictFind_append {α : Type} (l1 l2 : List (String × α)) (k : String) :
    dictFind (l1 ++ l2) k =
      (match dictFind l1 k with
        | some v => some v
        | none => dictFind l2 k) := by
  induction l1 with
  | nil => simp [dictFind]
  | cons p rest ih =>
    rcases p with ⟨k', v'⟩
    simp only [List.cons_append, dictFind]
    by_cases h : k' = k <;> simp [h, ih]

theorem addCommands_append (l1 l2 : List CmdClass) : ∀ cmds : List (String × CmdClass),
    addCommands cmds (l1 ++ l2) =
      (match addCommands cmds l1 with
        | .error e => .error e
        | .ok c => addCommands c l2) := by
  induction l1 with
  | nil => intro cmds; simp [addCommands]
  | cons c rest ih =>
    intro cmds
    simp only [List.cons_append, addCommands]
    cases h : dictFind cmds c.name with
    | some stored => simp
    | none => simp [ih]

theorem getCommandsInfoAux_flat : ∀ (groups : List (String × String × List CmdClass))
    (cmds : List (String × CmdClass)),
    getCommandsInfoAux cmds groups = addCommands cmds (flatClasses groups) := by
  intro groups
  induction groups with
  | nil => intro cmds; simp [getCommandsInfoAux, flatClasses, addCommands]
  | cons g rest ih =>
    intro cmds
    rcases g with ⟨gid, gname, classes⟩
    have hflat : flatClasses ((gid, gname, classes) :: rest) = classes ++ flatClasses rest := by
      simp [flatClasses]
    rw [hflat, addCommands_append]
    simp only [getCommandsInfoAux]
    cases h : addCommands cmds classes with
    | error e => simp
    | ok c2 => simp [ih]

theorem addCommands_ok_iff : ∀ (classes : List CmdClass) (cmds : List (String × CmdClass)),
    (∃ r, addCommands cmds classes = .ok r) ↔
      ((classes.map fun c => c.name).Nodup ∧ ∀ c ∈ classes, dictFind cmds c.name = none) := by
  intro classes
  induction classes with
  | nil =>
    intro cmds
    simp [addCommands]
  | cons c rest ih =>
    intro cmds
    simp only [addCommands, List.map_cons, List.nodup_cons, List.mem_cons]
    cases h : dictFind cmds c.name with
    | some stored =>
      constructor
      · rintro ⟨r, hr⟩
        simp at hr
      · rintro ⟨_, hall⟩
        have hc := hall c (Or.inl rfl)
        rw [h] at hc
        simp at hc
    | none =>
      rw [ih (cmds ++ [(c.name, c)])]
      constructor
      · rintro ⟨hnodup, hall⟩
        have hnotmem : ¬ c.name ∈ rest.map fun d => d.name := by
          intro hmem
          obtain ⟨d, hd, hdn⟩ := List.mem_map.mp hmem
          have := hall d hd
          rw [dictFind_append] at this
          rcases hfind : dictFind cmds d.name with _ | v
          · rw [hfind] at this
            simp only [dictFind] at this
            rw [if_pos hdn.symm] at this
            simp at this
          · rw [hfind] at this
            simp at this
        refine ⟨⟨hnotmem, hnodup⟩, ?_⟩
        intro d hd
        rcases hd with hd | hd
        · subst hd
          exact h
        · have := hall d hd
          rw [dictFind_append] at this
          rcases hfind : dictFind cmds d.name with _ | v
          · rfl
          · rw [hfind] at this
            simp at this
      · rintro ⟨⟨hnotmem, hnodup⟩, hall⟩
        refine ⟨hnodup, ?_⟩
        intro d hd
        rw [dictFind_append]
        have h1 : dictFind cmds d.name = none := hall d (Or.inr hd)
        rw [h1]
        simp only [dictFind]
        have hne : ¬ c.name = d.name := by
          intro he
          exact hnotmem (List.mem_map.mpr ⟨d, hd, he.symm⟩)
        simp [hne]

theorem addCommands_ok_lookup : ∀ (classes : List CmdClass) (cmds r : List (String × CmdClass)),
    addCommands cmds classes = .ok r →
    (∀ (k : String) (v : CmdClass), dictFind cmds k = some v → dictFind r k = some v) ∧
    (∀ c ∈ classes, dictFind r c.name = some c) := by
  intro classes
  induction classes with
  | nil =>
    intro cmds r h
    simp only [addCommands, Except.ok.injEq] at h
    subst h
    exact ⟨fun k v hv => hv, by simp⟩
  | cons c rest ih =>
    intro cmds r h
    simp only [addCommands] at h
    cases hfind : dictFind cmds c.name with
    | some stored =>
      rw [hfind] at h
      simp at h
    | none =>
      rw [hfind] at h
      obtain ⟨hpres, hcov⟩ := ih (cmds ++ [(c.name, c)]) r h
      have hstep : ∀ (k : String) (v : CmdClass), dictFind cmds k = some v →
          dictFind (cmds ++ [(c.name, c)]) k = some v := by
        intro k v hv
        rw [dictFind_append, hv]
      refine ⟨fun k v hv => hpres k v (hstep k v hv), ?_⟩
      intro d hd
      rcases List.mem_cons.mp hd with hd | hd
      · subst hd
        apply hpres
        rw [dictFind_append, hfind]
        simp [dictFind]
      · exact hcov d hd

theorem addCommands_error : ∀ (classes : List CmdClass) (cmds : List (String × CmdClass))
    (msg : String), addCommands cmds classes = .error msg →
    ∃ c stored, c ∈ classes ∧ msg = dupCmdMsg c.className stored.className ∧
      (dictFind cmds c.name = some stored ∨ (stored ∈ classes ∧ stored.name = c.name)) := by
  intro classes
  induction classes with
  | nil =>
    intro cmds msg h
    simp [addCommands] at h
  | cons c rest ih =>
    intro cmds msg h
    simp only [addCommands] at h
    cases hfind : dictFind cmds c.name with
    | some stored =>
      rw [hfind] at h
      simp only [Except.error.injEq] at h
      exact ⟨c, stored, List.mem_cons_self c rest, h.symm, Or.inl hfind⟩
    | none =>
      rw [hfind] at h
      obtain ⟨d, stored, hd, hmsg, hor⟩ := ih (cmds ++ [(c.name, c)]) msg h
      rcases hor with hor | hor
      · rw [dictFind_append] at hor
        cases hfd : dictFind cmds d.name with
        | some v =>
          rw [hfd] at hor
          simp only [Option.some.injEq] at hor
          exact ⟨d, stored, List.mem_cons_of_mem c hd, hmsg, Or.inl (by rw [hfd, hor])⟩
        | none =>
          rw [hfd] at hor
          simp only [dictFind] at hor
          by_cases hname : c.name = d.name
          · rw [if_pos hname] at hor
            simp only [Option.some.injEq] at hor
            exact ⟨d, stored, List.mem_cons_of_mem c hd, hmsg,
              Or.inr ⟨by rw [← hor]; exact List.mem_cons_self c rest, by rw [← hor]; exact hname⟩⟩
          · rw [if_neg hname] at hor
            simp at hor
      · exact ⟨d, stored, List.mem_cons_of_mem c hd, hmsg,
          Or.inr ⟨List.mem_cons_of_mem c hor.1, hor.2⟩⟩

/-- Claim C8: registry construction succeeds exactly when the declared
command names are pairwise distinct; on success every declared command is
present under its name, and on a duplicate it fails fast with the
`RuntimeError` message naming both classes, never silently overwriting. -/
theorem registryUniqueness (groups : List (String × String × List CmdClass)) :
    ((∃ r, getCommandsInfo groups = .ok r) ↔
      ((flatClasses groups).map fun c => c.name).Nodup) ∧
    (∀ r, getCommandsInfo groups = .ok r →
      ∀ c ∈ flatClasses groups, dictFind r c.name = some c) ∧
    (∀ msg, getCommandsInfo groups = .error msg →
      ∃ c stored, c ∈ flatClasses groups ∧ stored ∈ flatClasses groups ∧
        stored.name = c.name ∧ msg = dupCmdMsg c.className stored.className) := by
  have hflat : getCommandsInfo groups = addCommands [] (flatClasses groups) := by
    unfold getCommandsInfo
    exact getCommandsInfoAux_flat groups []
  refine ⟨?_, ?_, ?_⟩
  · rw [hflat, addCommands_ok_iff]
    constructor
    · rintro ⟨hnodup, _⟩
      exact hnodup
    · intro hnodup
      exact ⟨hnodup, fun c hc => by simp [dictFind]⟩
  · intro r hr
    rw [hflat] at hr
    exact (addCommands_ok_lookup (flatClasses groups) [] r hr).2
  · intro msg hmsg
    rw [hflat] at hmsg
    obtain ⟨c, stored, hc, hm, hor⟩ := addCommands_error (flatClasses groups) [] msg hmsg
    rcases hor with hor | hor
    · simp [dictFind] at hor
    · exact ⟨c, stored, hc, hor.1, hor.2, hm⟩

/-- Witness for claim C8: the duplicate demo registry produces the error
naming both classes, and the well-formed demo registry covers both of its
commands. -/
theorem registryUniqueness_witness :
    (∃ c stored, c ∈ flatClasses dupGroups ∧ stored ∈ flatClasses dupGroups ∧
      stored.name = c.name ∧
      "Multiple commands with same name: PackCloneCommand and PackCommand" =
        dupCmdMsg c.className stored.className) ∧
    (∀ c ∈ flatClasses demoGroups, dictFind demoRegistry c.name = some c) := by
  constructor
  · exact (registryUniqueness dupGroups).2.2 _ rfl
  · exact (registryUniqueness demoGroups).2.1 demoRegistry rfl

theorem loadCount_modeEvents (st : GlobalState) : loadCount (modeEvents st) = 0 := by
  unfold modeEvents loadCount
  split_ifs <;> rfl

theorem loadCount_append (l1 l2 : List Event) :
    loadCount (l1 ++ l2) = loadCount l1 + loadCount l2 := by
  unfold loadCount
  rw [List.filter_append, List.length_append]

/-- Claim C7: the configuration loader runs exactly once per dispatched
invocation, on the resolved `project_dir` global value, after the scan and
the global checks and after the command name is validated against the
registry, and before the command is instantiated; no pre-parse failure
path (help outcome, argument error, unknown command) ever calls it. -/
theorem configLoadDiscipline (commands : List (String × CmdClass))
    (load : Option String → Config) (sysargs : List String) :
    (∀ e, (preParse commands load sysargs).1 = .error e →
      loadCount (preParse commands load sysargs).2 = 0) ∧
    (∀ (name : String) (cmdArgs : List String) (cfg : Config),
      (preParse commands load sysargs).1 = .ok (name, cmdArgs, cfg) →
      ∃ st, scan initGlobalState [] sysargs = .ok (st, name :: cmdArgs) ∧
        (dictFind commands name).isSome ∧
        cfg = load (getOpt st "project_dir") ∧
        (preParse commands load sysargs).2 =
          modeEvents st ++ [.loadConfig (getOpt st "project_dir")] ∧
        loadCount (preParse commands load sysargs).2 = 1) ∧
    (∀ (groups : List (String × String × List CmdClass)) (name : String)
      (cmdArgs : List String) (cfg : Config),
      getCommandsInfo groups = .ok commands →
      (preParse commands load sysargs).1 = .ok (name, cmdArgs, cfg) →
      ∃ cls, dictFind commands name = some cls ∧
        (dispatchPipeline groups load sysargs).2 =
          (preParse commands load sysargs).2 ++ [.instantiate cls.name cfg]) := by
  cases hscan : scan initGlobalState [] sysargs with
  | error err =>
    cases err with
    | argParse m =>
      have hpre : preParse commands load sysargs =
          (.error (.argError (.plain m)), []) := by
        unfold preParse
        rw [hscan]
      refine ⟨?_, ?_, ?_⟩
      · intro e _
        rw [hpre]
        rfl
      · intro name cmdArgs cfg hok
        rw [hpre] at hok
        simp at hok
      · intro groups name cmdArgs cfg _ hok
        rw [hpre] at hok
        simp at hok
    | keyError k =>
      have hpre : preParse commands load sysargs =
          (.error (.internal k), []) := by
        unfold preParse
        rw [hscan]
      refine ⟨?_, ?_, ?_⟩
      · intro e _
        rw [hpre]
        rfl
      · intro name cmdArgs cfg hok
        rw [hpre] at hok
        simp at hok
      · intro groups name cmdArgs cfg _ hok
        rw [hpre] at hok
        simp at hok
  | ok pair =>
    rcases pair with ⟨st, filtered⟩
    by_cases hqv : (getFlag st "quiet" && getFlag st "verbose") = true
    · have hpre : preParse commands load sysargs =
          (.error (.argError (.plain mutualExclusiveMsg)), []) := by
        unfold preParse
        rw [hscan]
        simp [hqv]
      refine ⟨?_, ?_, ?_⟩
      · intro e _
        rw [hpre]
        rfl
      · intro name cmdArgs cfg hok
        rw [hpre] at hok
        simp at hok
      · intro groups name cmdArgs cfg _ hok
        rw [hpre] at hok
        simp at hok
    · by_cases hh : getFlag st "help" = true
      · rcases hgr : getRequestedHelp commands filtered with t | t
        · have hpre : preParse commands load sysargs =
              (.error (.argError t), modeEvents st) := by
            unfold preParse
            rw [hscan]
            simp [hqv, hh, hgr]
          refine ⟨?_, ?_, ?_⟩
          · intro e _
            rw [hpre]
            exact loadCount_modeEvents st
          · intro name cmdArgs cfg hok
            rw [hpre] at hok
            simp at hok
          · intro groups name cmdArgs cfg _ hok
            rw [hpre] at hok
            simp at hok
        · have hpre : preParse commands load sysargs =
              (.error (.helpExc t), modeEvents st) := by
            unfold preParse
            rw [hscan]
            simp [hqv, hh, hgr]
          refine ⟨?_, ?_, ?_⟩
          · intro e _
            rw [hpre]
            exact loadCount_modeEvents st
          · intro name cmdArgs cfg hok
            rw [hpre] at hok
            simp at hok
          · intro groups name cmdArgs cfg _ hok
            rw [hpre] at hok
            simp at hok
      · cases filtered with
        | nil =>
          have hpre : preParse commands load sysargs =
              (.error (.argError .fullHelp), modeEvents st) := by
            unfold preParse
            rw [hscan]
            simp [hqv, hh]
          refine ⟨?_, ?_, ?_⟩
          · intro e _
            rw [hpre]
            exact loadCount_modeEvents st
          · intro name cmdArgs cfg hok
            rw [hpre] at hok
            simp at hok
          · intro groups name cmdArgs cfg _ hok
            rw [hpre] at hok
            simp at hok
        | cons command cmdArgs0 =>
          by_cases hcmd : command = "help"
          · rcases hgr : getRequestedHelp commands cmdArgs0 with t | t
            · have hpre : preParse commands load sysargs =
                  (.error (.argError t), modeEvents st) := by
                unfold preParse
                rw [hscan]
                simp [hqv, hh, hcmd, hgr]
              refine ⟨?_, ?_, ?_⟩
              · intro e _
                rw [hpre]
                exact loadCount_modeEvents st
              · intro name cmdArgs cfg hok
                rw [hpre] at hok
                simp at hok
              · intro groups name cmdArgs cfg _ hok
                rw [hpre] at hok
                simp at hok
            · have hpre : preParse commands load sysargs =
                  (.error (.helpExc t), modeEvents st) := by
                unfold preParse
                rw [hscan]
                simp [hqv, hh, hcmd, hgr]
              refine ⟨?_, ?_, ?_⟩
              · intro e _
                rw [hpre]
                exact loadCount_modeEvents st
              · intro name cmdArgs cfg hok
                rw [hpre] at hok
                simp at hok
              · intro groups name cmdArgs cfg _ hok
                rw [hpre] at hok
                simp at hok
          · cases hfind : dictFind commands command with
            | none =>
              have hpre : preParse commands load sysargs =
                  (.error (.argError (.usageMessage (noSuchCmdMsg command) none)),
                    modeEvents st) := by
                unfold preParse
                rw [hscan]
                simp [hqv, hh, hcmd, hfind]
              refine ⟨?_, ?_, ?_⟩
              · intro e _
                rw [hpre]
                exact loadCount_modeEvents st
              · intro name cmdArgs cfg hok
                rw [hpre] at hok
                simp at hok
              · intro groups name cmdArgs cfg _ hok
                rw [hpre] at hok
                simp at hok
            | some cls0 =>
              have hpre : preParse commands load sysargs =
                  (.ok (command, cmdArgs0, load (getOpt st "project_dir")),
                    modeEvents st ++ [.loadConfig (getOpt st "project_dir")]) := by
                unfold preParse
                rw [hscan]
                simp [hqv, hh, hcmd, hfind]
              refine ⟨?_, ?_, ?_⟩
              · intro e herr
                rw [hpre] at herr
                simp at herr
              · intro name cmdArgs cfg hok
                rw [hpre] at hok
                simp only [Except.ok.injEq, Prod.mk.injEq] at hok
                obtain ⟨hn, hca, hcfg⟩ := hok
                subst hn
                subst hca
                subst hcfg
                refine ⟨st, rfl, by rw [hfind]; rfl, rfl, by rw [hpre], ?_⟩
                rw [hpre, loadCount_append, loadCount_modeEvents]
                rfl
              · intro groups name cmdArgs cfg hreg hok
                rw [hpre] at hok
                simp only [Except.ok.injEq, Prod.mk.injEq] at hok
                obtain ⟨hn, hca, hcfg⟩ := hok
                subst hn
                subst hca
                subst hcfg
                refine ⟨cls0, hfind, ?_⟩
                unfold dispatchPipeline
                simp only [hreg, hpre, hfind]
                cases hpa : cls0.parseArgs cmdArgs0 <;> simp [hpa]

/-- Witness for claim C7 at the concrete dispatched invocation
`--quiet version`. -/
theorem configLoadDiscipline_witness :
    ∃ st, scan initGlobalState [] ["--quiet", "version"] = .ok (st, "version" :: []) ∧
      (dictFind demoRegistry "version").isSome ∧
      demoLoad none = demoLoad (getOpt st "project_dir") ∧
      (preParse demoRegistry demoLoad ["--quiet", "version"]).2 =
        modeEvents st ++ [.loadConfig (getOpt st "project_dir")] ∧
      loadCount (preParse demoRegistry demoLoad ["--quiet", "version"]).2 = 1 :=
  (configLoadDiscipline demoRegistry demoLoad ["--quiet", "version"]).2.1 "version" []
    (demoLoad none) rfl

theorem Reaches.trans {a b c : List String} (hab : Reaches a b) (hbc : Reaches b c) :
    Reaches a c := by
  induction hbc with
  | refl => exact hab
  | flagStep _ hfo hft ih => exact .flagStep ih hfo hft
  | valueStep _ hfo hft ih => exact .valueStep ih hfo hft
  | eqStep _ hp hne ih => exact .eqStep ih hp hne
  | skipStep _ hfo hsw ih => exact .skipStep ih hfo hsw

theorem scan_reaches {args args2 : List String} (h : Reaches args args2) :
    ∀ (st : GlobalState) (f : List String), ∃ st2 f2, scan st f args = scan st2 f2 args2 := by
  induction h with
  | refl => exact fun st f => ⟨st, f, rfl⟩
  | flagStep _ hfo hft ih =>
    intro st f
    obtain ⟨st2, f2, heq⟩ := ih st f
    exact ⟨_, f2, by rw [heq, scan_flag hfo hft]⟩
  | valueStep _ hfo hft ih =>
    intro st f
    obtain ⟨st2, f2, heq⟩ := ih st f
    exact ⟨_, f2, by rw [heq, scan_value hfo hft]⟩
  | eqStep _ hp hne ih =>
    intro st f
    obtain ⟨st2, f2, heq⟩ := ih st f
    exact ⟨_, f2, by rw [heq, scan_eqform hp hne]⟩
  | skipStep _ hfo hsw ih =>
    intro st f
    obtain ⟨st2, f2, heq⟩ := ih st f
    exact ⟨_, _, by rw [heq, scan_other hfo hsw]⟩

theorem scan_error_iff : ∀ (args : List String) (st : GlobalState) (f : List String)
    (e : ScanError), scan st f args = .error e ↔
      (e = .argParse missingValueMsg ∧
        ((∃ tok a, Reaches args [tok] ∧ findOption tok = some a ∧ a.argtype = .option) ∨
         (∃ tok rest, Reaches args (tok :: rest) ∧ tok.data = "--project-dir=".data))) := by
  have HF : ∀ (n : ℕ) (args : List String), args.length ≤ n →
      ∀ (st : GlobalState) (f : List String) (e : ScanError), scan st f args = .error e →
      e = .argParse missingValueMsg ∧
        ((∃ tok a, Reaches args [tok] ∧ findOption tok = some a ∧ a.argtype = .option) ∨
         (∃ tok rest, Reaches args (tok :: rest) ∧ tok.data = "--project-dir=".data)) := by
    intro n
    induction n with
    | zero =>
      intro args hlen st f e h
      have hargs : args = [] := List.eq_nil_of_length_eq_zero (Nat.le_zero.mp hlen)
      subst hargs
      rw [scan_nil] at h
      simp at h
    | succ n ih =>
      intro args hlen st f e h
      cases args with
      | nil =>
        rw [scan_nil] at h
        simp at h
      | cons tok rest =>
        cases hfo : findOption tok with
        | none =>
          cases hsw : startsWithAnyEq tok with
          | false =>
            rw [scan_other hfo hsw] at h
            have hlen2 : rest.length ≤ n := by
              simp only [List.length_cons] at hlen
              omega
            obtain ⟨he, hshape⟩ := ih rest hlen2 st (f ++ [tok]) e h
            have hstep : Reaches (tok :: rest) rest := .skipStep (.refl _) hfo hsw
            refine ⟨he, ?_⟩
            rcases hshape with ⟨t2, a2, hr, hf2, ha2⟩ | ⟨t2, r2, hr, hd2⟩
            · exact Or.inl ⟨t2, a2, hstep.trans hr, hf2, ha2⟩
            · exact Or.inr ⟨t2, r2, hstep.trans hr, hd2⟩
          | true =>
            obtain ⟨t, hp⟩ := (startsWithAnyEq_iff tok).mp hsw
            cases t with
            | nil =>
              rw [scan_eqform_empty (by simpa using hp)] at h
              simp only [Except.error.injEq] at h
              refine ⟨h.symm, Or.inr ⟨tok, rest, .refl _, by simpa using hp⟩⟩
            | cons c cs =>
              rw [scan_eqform hp (by simp)] at h
              have hlen2 : rest.length ≤ n := by
                simp only [List.length_cons] at hlen
                omega
              obtain ⟨he, hshape⟩ := ih rest hlen2 _ f e h
              have hstep : Reaches (tok :: rest) rest := .eqStep (.refl _) hp (by simp)
              refine ⟨he, ?_⟩
              rcases hshape with ⟨t2, a2, hr, hf2, ha2⟩ | ⟨t2, r2, hr, hd2⟩
              · exact Or.inl ⟨t2, a2, hstep.trans hr, hf2, ha2⟩
              · exact Or.inr ⟨t2, r2, hstep.trans hr, hd2⟩
        | some a =>
          cases hat : a.argtype with
          | flag =>
            rw [scan_flag hfo hat] at h
            have hlen2 : rest.length ≤ n := by
              simp only [List.length_cons] at hlen
              omega
            obtain ⟨he, hshape⟩ := ih rest hlen2 _ f e h
            have hstep : Reaches (tok :: rest) rest := .flagStep (.refl _) hfo hat
            refine ⟨he, ?_⟩
            rcases hshape with ⟨t2, a2, hr, hf2, ha2⟩ | ⟨t2, r2, hr, hd2⟩
            · exact Or.inl ⟨t2, a2, hstep.trans hr, hf2, ha2⟩
            · exact Or.inr ⟨t2, r2, hstep.trans hr, hd2⟩
          | option =>
            cases rest with
            | nil =>
              rw [scan_value_missing hfo hat] at h
              simp only [Except.error.injEq] at h
              exact ⟨h.symm, Or.inl ⟨tok, a, .refl _, hfo, hat⟩⟩
            | cons v rest2 =>
              rw [scan_value hfo hat] at h
              have hlen2 : rest2.length ≤ n := by
                simp only [List.length_cons] at hlen
                omega
              obtain ⟨he, hshape⟩ := ih rest2 hlen2 _ f e h
              have hstep : Reaches (tok :: v :: rest2) rest2 := .valueStep (.refl _) hfo hat
              refine ⟨he, ?_⟩
              rcases hshape with ⟨t2, a2, hr, hf2, ha2⟩ | ⟨t2, r2, hr, hd2⟩
              · exact Or.inl ⟨t2, a2, hstep.trans hr, hf2, ha2⟩
              · exact Or.inr ⟨t2, r2, hstep.trans hr, hd2⟩
  intro args st f e
  constructor
  · exact fun h => HF args.length args le_rfl st f e h
  · rintro ⟨he, hshape⟩
    subst he
    rcases hshape with ⟨tok, a, hreach, hfo, hat⟩ | ⟨tok, rest, hreach, hp⟩
    · obtain ⟨st2, f2, heq⟩ := scan_reaches hreach st f
      rw [heq, scan_value_missing hfo hat]
    · obtain ⟨st2, f2, heq⟩ := scan_reaches hreach st f
      rw [heq, scan_eqform_empty hp]

/-- Claim C5: the scanning pass fails in exactly two value-failure shapes,
both with the message naming the `project-dir` option: reaching a declared
value-option form as the last remaining token, and reaching a
`--project-dir=` token whose value after the first `=` is empty (that is,
the token is exactly the stem); the `=` split is on the first `=` only, so
a non-empty value keeps any further `=` characters intact. -/
theorem valueOptionFailureShapes :
    (∀ (st : GlobalState) (f args : List String) (e : ScanError),
      scan st f args = .error e ↔
        (e = .argParse missingValueMsg ∧
          ((∃ tok a, Reaches args [tok] ∧ findOption tok = some a ∧ a.argtype = .option) ∨
           (∃ tok rest, Reaches args (tok :: rest) ∧ tok.data = "--project-dir=".data)))) ∧
    (∀ (st : GlobalState) (f rest : List String) (v : List Char), v ≠ [] →
      scan st f (String.mk ("--project-dir=".data ++ v) :: rest) =
        scan (dictSet st "project_dir" (.optVal (some (String.mk v)))) f rest) ∧
    missingValueMsg = "The \x27project-dir\x27 option expects one argument." := by
  refine ⟨?_, ?_, rfl⟩
  · intro st f args e
    exact scan_error_iff args st f e
  · intro st f rest v hv
    exact scan_eqform rfl hv st f rest

/-- Witness for claim C5: a trailing `-p` fails with the project-dir
message, and `--project-dir=a=b` resolves to the intact value `a=b`. -/
theorem valueOptionFailureShapes_witness :
    scan initGlobalState [] ["-p"] = .error (.argParse missingValueMsg) ∧
    scan initGlobalState [] ["--project-dir=a=b", "cmd"] =
      scan (dictSet initGlobalState "project_dir" (.optVal (some "a=b"))) [] ["cmd"] := by
  constructor
  · exact (valueOptionFailureShapes.1 initGlobalState [] ["-p"] (.argParse missingValueMsg)).mpr
      ⟨rfl, Or.inl ⟨"-p", projectDirArg, .refl _, rfl, rfl⟩⟩
  · exact valueOptionFailureShapes.2.1 initGlobalState [] ["cmd"] "a=b".data (by decide)

end Charmcraft
